import Mathlib

/-!
# Verification of the Bitcoin accounting / UTXO-to-FASB engine

Shallow embedding of `src/main.rs`.  The Rust `Decimal` type
(`rust_decimal`, an exact decimal fixed-point type) is modelled by `ℚ`;
`DateTime<Utc>` (a totally ordered timestamp) by `Nat`; Rust `HashMap`s
by association lists with HashMap `insert`/`remove`/`get` semantics
(the program never iterates over a map, so iteration order is
unobservable and the association-list model is faithful).
-/

set_option autoImplicit false

namespace BtcAcct

/-- Association-list model of `HashMap::insert`: overwrite the value at an
existing key, otherwise add the binding. -/
def mapInsert {K V : Type} [DecidableEq K] : List (K × V) → K → V → List (K × V)
  | [], k, v => [(k, v)]
  | (k', v') :: rest, k, v =>
      if k' = k then (k, v) :: rest else (k', v') :: mapInsert rest k v

/-- Association-list model of `HashMap::remove`: drop the binding for the
key when present, otherwise leave the map unchanged. -/
def mapRemove {K V : Type} [DecidableEq K] : List (K × V) → K → List (K × V)
  | [], _ => []
  | (k', v') :: rest, k =>
      if k' = k then rest else (k', v') :: mapRemove rest k

/-- Association-list model of `HashMap::get`. -/
def mapGet {K V : Type} [DecidableEq K] : List (K × V) → K → Option V
  | [], _ => none
  | (k', v') :: rest, k => if k' = k then some v' else mapGet rest k

/-- `struct UTXO` from `src/main.rs`. -/
structure UTXO where
  txid : String
  vout : Nat
  amount : ℚ
  address : String
  confirmations : Nat
  spendable : Bool
  timestamp : Nat
  deriving DecidableEq, Repr

/-- `struct Transaction` from `src/main.rs`. -/
structure Transaction where
  txid : String
  timestamp : Nat
  inputs : List UTXO
  outputs : List UTXO
  fee : ℚ
  deriving DecidableEq, Repr

/-- `struct AccountingEntry` from `src/main.rs`. -/
structure AccountingEntry where
  date : Nat
  description : String
  debit : ℚ
  credit : ℚ
  deriving DecidableEq, Repr

/-- `struct BitcoinAccountingApp` from `src/main.rs`. -/
structure BitcoinAccountingApp where
  utxo_set : List (String × UTXO)
  transactions : List Transaction
  accounting_entries : List AccountingEntry
  exchange_rates : List (Nat × ℚ)
  deriving DecidableEq, Repr

namespace BitcoinAccountingApp

/-- `BitcoinAccountingApp::new`. -/
def new : BitcoinAccountingApp :=
  { utxo_set := [], transactions := [], accounting_entries := [],
    exchange_rates := [] }

/-- The UTXO-set key `format!("\x7b\x7d:\x7b\x7d", txid, vout)`. -/
def utxoKey (txid : String) (vout : Nat) : String :=
  txid ++ ":" ++ toString vout

/-- `BitcoinAccountingApp::add_transaction`, statement by statement:
remove spent UTXOs, add new UTXOs, push up to three accounting entries,
append the transaction to the log. -/
def add_transaction (app : BitcoinAccountingApp) (transaction : Transaction) :
    BitcoinAccountingApp :=
  -- Remove spent UTXOs
  let app := { app with
    utxo_set := transaction.inputs.foldl
      (fun (s : List (String × UTXO)) (input : UTXO) => mapRemove s (utxoKey input.txid input.vout))
      app.utxo_set }
  -- Add new UTXOs
  let app := { app with
    utxo_set := transaction.outputs.foldl
      (fun (s : List (String × UTXO)) (output : UTXO) => mapInsert s (utxoKey transaction.txid output.vout) output)
      app.utxo_set }
  -- Create accounting entries
  let total_input : ℚ := (transaction.inputs.map (fun utxo => utxo.amount)).sum
  let total_output : ℚ := (transaction.outputs.map (fun utxo => utxo.amount)).sum
  -- Debit entry (for received funds)
  let app : BitcoinAccountingApp := if total_output > 0 then
    { app with accounting_entries := app.accounting_entries ++
        [{ date := transaction.timestamp,
           description := "Received BTC - " ++ transaction.txid,
           debit := total_output, credit := 0 }] }
    else app
  -- Credit entry (for sent funds)
  let app : BitcoinAccountingApp := if total_input > 0 then
    { app with accounting_entries := app.accounting_entries ++
        [{ date := transaction.timestamp,
           description := "Sent BTC - " ++ transaction.txid,
           debit := 0, credit := total_input }] }
    else app
  -- Fee entry
  let app : BitcoinAccountingApp := if transaction.fee > 0 then
    { app with accounting_entries := app.accounting_entries ++
        [{ date := transaction.timestamp,
           description := "Transaction fee - " ++ transaction.txid,
           debit := 0, credit := transaction.fee }] }
    else app
  { app with transactions := app.transactions ++ [transaction] }

/-- `BitcoinAccountingApp::generate_fasb_report`. -/
def generate_fasb_report (app : BitcoinAccountingApp)
    (start_date end_date : Nat) : List AccountingEntry :=
  app.accounting_entries.filter
    (fun entry => decide (entry.date ≥ start_date) && decide (entry.date ≤ end_date))

/-- The rate lookup `self.exchange_rates.get(&t).unwrap_or(&Decimal::ONE)`. -/
def rateAt (rates : List (Nat × ℚ)) (t : Nat) : ℚ :=
  (mapGet rates t).getD 1

/-- `BitcoinAccountingApp::calculate_realized_gains_losses`: a running
accumulator over the transaction log, skipping transactions outside the
window. -/
def calculate_realized_gains_losses (app : BitcoinAccountingApp)
    (start_date end_date : Nat) : ℚ :=
  app.transactions.foldl
    (fun realized_gain_loss transaction =>
      if transaction.timestamp < start_date ∨ transaction.timestamp > end_date then
        realized_gain_loss
      else
        let acquisition_cost : ℚ := (transaction.inputs.map (fun utxo =>
          utxo.amount * rateAt app.exchange_rates utxo.timestamp)).sum
        let sale_value : ℚ := (transaction.outputs.map (fun utxo =>
          utxo.amount * rateAt app.exchange_rates transaction.timestamp)).sum
        realized_gain_loss + (sale_value - acquisition_cost))
    0

/-- `BitcoinAccountingApp::add_exchange_rate`. -/
def add_exchange_rate (app : BitcoinAccountingApp) (date : Nat) (rate : ℚ) :
    BitcoinAccountingApp :=
  { app with exchange_rates := mapInsert app.exchange_rates date rate }

end BitcoinAccountingApp

open BitcoinAccountingApp

/-- The four public operations of the engine, as a command type.  `addTx`
and `setRate` take `&mut self` in the source; `report` and `gains` take
`&self` (read-only receiver). -/
inductive Command where
  | addTx (t : Transaction)
  | setRate (date : Nat) (rate : ℚ)
  | report (s e : Nat)
  | gains (s e : Nat)
  deriving DecidableEq, Repr

/-- Result value of a command. -/
inductive Output where
  | unit
  | entries (l : List AccountingEntry)
  | value (q : ℚ)
  deriving DecidableEq, Repr

/-- Small-step semantics of one engine method call: the resulting state and
the returned value.  A `&self` method leaves the state untouched by its
receiver type. -/
def step (app : BitcoinAccountingApp) : Command → BitcoinAccountingApp × Output
  | Command.addTx t => (add_transaction app t, Output.unit)
  | Command.setRate d r => (add_exchange_rate app d r, Output.unit)
  | Command.report s e => (app, Output.entries (generate_fasb_report app s e))
  | Command.gains s e => (app, Output.value (calculate_realized_gains_losses app s e))

/-- The accounting entries generated by one transaction: a debit entry for
the received total when positive, then a credit entry for the sent total
when positive, then a credit entry for the fee when positive. -/
def generatedEntries (tx : Transaction) : List AccountingEntry :=
  (if (tx.outputs.map (fun utxo => utxo.amount)).sum > (0 : ℚ) then
     [{ date := tx.timestamp, description := "Received BTC - " ++ tx.txid,
        debit := (tx.outputs.map (fun utxo => utxo.amount)).sum, credit := 0 }]
   else []) ++
  (if (tx.inputs.map (fun utxo => utxo.amount)).sum > (0 : ℚ) then
     [{ date := tx.timestamp, description := "Sent BTC - " ++ tx.txid,
        debit := 0, credit := (tx.inputs.map (fun utxo => utxo.amount)).sum }]
   else []) ++
  (if tx.fee > (0 : ℚ) then
     [{ date := tx.timestamp, description := "Transaction fee - " ++ tx.txid,
        debit := 0, credit := tx.fee }]
   else [])

/-- One step of the spec's unspent-set bookkeeping for a single
transaction: first delete the consumed outputs, keyed by the input's
origin txid and output index, then add the produced outputs, keyed by the
producing transaction's txid and output index. -/
def specUnspentStep (s : List (String × UTXO)) (tx : Transaction) :
    List (String × UTXO) :=
  tx.outputs.foldl
    (fun (m : List (String × UTXO)) (output : UTXO) =>
      mapInsert m (utxoKey tx.txid output.vout) output)
    (tx.inputs.foldl
      (fun (m : List (String × UTXO)) (input : UTXO) =>
        mapRemove m (utxoKey input.txid input.vout))
      s)

/-- The spec's unspent set for a transaction sequence: all produced
outputs minus all consumed outputs, applied in log order to the empty
set. -/
def specUnspent (txs : List Transaction) : List (String × UTXO) :=
  txs.foldl specUnspentStep []

/-- A concrete unspent output, mirroring `utxo1` from `main`. -/
def sampleUtxo1 : UTXO :=
  { txid := "tx1", vout := 0, amount := 1, address := "addr1",
    confirmations := 6, spendable := true, timestamp := 5 }

/-- A concrete produced output, mirroring `utxo2` from `main`. -/
def sampleUtxo2 : UTXO :=
  { txid := "tx2", vout := 1, amount := 1/2, address := "addr2",
    confirmations := 6, spendable := true, timestamp := 7 }

/-- A concrete transaction, mirroring the example transaction from `main`. -/
def sampleTx : Transaction :=
  { txid := "tx3", timestamp := 10, inputs := [sampleUtxo1],
    outputs := [sampleUtxo2], fee := 1/10000 }

/-- A concrete engine state holding one applied transaction. -/
def sampleApp : BitcoinAccountingApp :=
  add_transaction BitcoinAccountingApp.new sampleTx

/-! ## Helper lemmas about the components touched by `add_transaction` -/

theorem utxoSet_add_transaction (app : BitcoinAccountingApp) (tx : Transaction) :
    (add_transaction app tx).utxo_set = specUnspentStep app.utxo_set tx := by
  unfold add_transaction specUnspentStep
  dsimp only
  split <;> split <;> split <;> rfl

theorem transactions_add_transaction (app : BitcoinAccountingApp) (tx : Transaction) :
    (add_transaction app tx).transactions = app.transactions ++ [tx] := by
  unfold add_transaction
  dsimp only
  split <;> split <;> split <;> rfl

theorem exchangeRates_add_transaction (app : BitcoinAccountingApp) (tx : Transaction) :
    (add_transaction app tx).exchange_rates = app.exchange_rates := by
  unfold add_transaction
  dsimp only
  split <;> split <;> split <;> rfl

theorem accountingEntries_add_transaction (app : BitcoinAccountingApp) (tx : Transaction) :
    (add_transaction app tx).accounting_entries
      = app.accounting_entries ++ generatedEntries tx := by
  unfold add_transaction generatedEntries
  dsimp only
  split <;> split <;> split <;> simp

/-! ## Helper lemmas about the association-list map model -/

theorem mapGet_mapInsert_self {K V : Type} [DecidableEq K]
    (m : List (K × V)) (k : K) (v : V) :
    mapGet (mapInsert m k v) k = some v := by
  induction m with
  | nil => simp [mapInsert, mapGet]
  | cons p rest ih =>
    by_cases h : p.1 = k
    · simp [mapInsert, mapGet, h]
    · simp [mapInsert, mapGet, h, ih]

theorem mapInsert_mapInsert_same {K V : Type} [DecidableEq K]
    (m : List (K × V)) (k : K) (v1 v2 : V) :
    mapInsert (mapInsert m k v1) k v2 = mapInsert m k v2 := by
  induction m with
  | nil => simp [mapInsert]
  | cons p rest ih =>
    by_cases h : p.1 = k
    · simp [mapInsert, h]
    · simp [mapInsert, h, ih]

theorem mapRemove_of_absent {K V : Type} [DecidableEq K]
    (m : List (K × V)) (k : K) (h : mapGet m k = none) :
    mapRemove m k = m := by
  induction m with
  | nil => rfl
  | cons p rest ih =>
    by_cases hp : p.1 = k
    · simp [mapGet, hp] at h
    · simp [mapGet, hp] at h
      simp [mapRemove, hp, ih h]

/-- Folding `HashMap::remove` over a list of inputs none of whose keys are
present leaves the map unchanged. -/
theorem foldl_mapRemove_absent (inputs : List UTXO) (s : List (String × UTXO))
    (h : ∀ input ∈ inputs,
      mapGet s (utxoKey input.txid input.vout) = none) :
    inputs.foldl
      (fun (m : List (String × UTXO)) (input : UTXO) =>
        mapRemove m (utxoKey input.txid input.vout)) s = s := by
  induction inputs with
  | nil => rfl
  | cons i rest ih =>
    have h0 : mapGet s (utxoKey i.txid i.vout) = none := h i (by simp)
    have hrest : ∀ input ∈ rest,
        mapGet s (utxoKey input.txid input.vout) = none := by
      intro input hin; exact h input (by simp [hin])
    simp [List.foldl_cons, mapRemove_of_absent s _ h0, ih hrest]

/-- A left fold that either skips an element or adds `f x` to the
accumulator equals the starting value plus the sum of `f` over the kept
elements. -/
theorem foldl_skip_sum {α : Type} (q : α → Prop) [DecidablePred q]
    (p : α → Bool) (f : α → ℚ) (hpq : ∀ x, p x = true ↔ ¬ q x) :
    ∀ (l : List α) (a : ℚ),
      l.foldl (fun acc x => if q x then acc else acc + f x) a
        = a + ((l.filter p).map f).sum := by
  intro l
  induction l with
  | nil => intro a; simp
  | cons x xs ih =>
    intro a
    by_cases hx : q x
    · have hp : p x = false := by
        cases hpx : p x
        · rfl
        · exact absurd ((hpq x).mp hpx) (not_not.mpr hx)
      simp [List.foldl_cons, List.filter_cons, hx, hp, ih]
    · have hp : p x = true := (hpq x).mpr hx
      simp [List.foldl_cons, List.filter_cons, hx, hp, ih, add_assoc]

/-- `calculate_realized_gains_losses` as a closed-form sum over the
transactions inside the window. -/
theorem gains_eq_filter_sum (app : BitcoinAccountingApp) (s e : Nat) :
    calculate_realized_gains_losses app s e
      = ((app.transactions.filter
            (fun tx => decide (s ≤ tx.timestamp) && decide (tx.timestamp ≤ e))).map
          (fun tx =>
            (tx.outputs.map (fun utxo =>
              utxo.amount * rateAt app.exchange_rates tx.timestamp)).sum
            - (tx.inputs.map (fun utxo =>
              utxo.amount * rateAt app.exchange_rates utxo.timestamp)).sum)).sum := by
  have h := foldl_skip_sum
    (fun tx : Transaction => tx.timestamp < s ∨ tx.timestamp > e)
    (fun tx => decide (s ≤ tx.timestamp) && decide (tx.timestamp ≤ e))
    (fun tx =>
      (tx.outputs.map (fun utxo =>
        utxo.amount * rateAt app.exchange_rates tx.timestamp)).sum
      - (tx.inputs.map (fun utxo =>
        utxo.amount * rateAt app.exchange_rates utxo.timestamp)).sum)
    (by intro x; simp)
    app.transactions 0
  simpa [calculate_realized_gains_losses] using h

/-! ## Claim theorems -/

/-- C1: Unspent-set bookkeeping invariant: applying any sequence of
transactions, in order, to a freshly constructed engine leaves
`utxo_set` equal to the outputs produced by those transactions, keyed by
the producing transaction's txid and output index, minus the outputs
consumed as inputs, keyed by the input's origin txid and output index,
applied in log order. -/
theorem unspent_set_bookkeeping (txs : List Transaction) :
    (txs.foldl add_transaction BitcoinAccountingApp.new).utxo_set
      = specUnspent txs := by
  have gen : ∀ (l : List Transaction) (app : BitcoinAccountingApp),
      (l.foldl add_transaction app).utxo_set
        = l.foldl specUnspentStep app.utxo_set := by
    intro l
    induction l with
    | nil => intro app; rfl
    | cons t rest ih =>
      intro app
      rw [List.foldl_cons, List.foldl_cons, ih, utxoSet_add_transaction]
  exact gen txs BitcoinAccountingApp.new

/-- C2: Entry generation: `add_transaction` appends to the accounting log
exactly a debit entry for the output total (present iff the total is
positive), then a credit entry for the input total (present iff
positive), then a credit entry for the fee (present iff positive), each
dated with the transaction's timestamp and carrying the stated
description; zero totals suppress the corresponding entry. -/
theorem entry_generation (app : BitcoinAccountingApp) (tx : Transaction) :
    (add_transaction app tx).accounting_entries
      = app.accounting_entries
        ++ (if (tx.outputs.map (fun utxo => utxo.amount)).sum > (0 : ℚ) then
              [{ date := tx.timestamp,
                 description := "Received BTC - " ++ tx.txid,
                 debit := (tx.outputs.map (fun utxo => utxo.amount)).sum,
                 credit := 0 }]
            else [])
        ++ (if (tx.inputs.map (fun utxo => utxo.amount)).sum > (0 : ℚ) then
              [{ date := tx.timestamp,
                 description := "Sent BTC - " ++ tx.txid,
                 debit := 0,
                 credit := (tx.inputs.map (fun utxo => utxo.amount)).sum }]
            else [])
        ++ (if tx.fee > (0 : ℚ) then
              [{ date := tx.timestamp,
                 description := "Transaction fee - " ++ tx.txid,
                 debit := 0, credit := tx.fee }]
            else []) := by
  simp [accountingEntries_add_transaction, generatedEntries, List.append_assoc]

/-- C3: Realized gain/loss is the sum, over transactions whose timestamp
lies in the inclusive window, of the outputs priced at the transaction's
timestamp minus the inputs priced at each input's own observation
timestamp, where `rateAt` is the table lookup with fallback rate 1; an
empty filter gives sum zero. -/
theorem realized_gain_loss_spec (app : BitcoinAccountingApp) (s e : Nat) :
    calculate_realized_gains_losses app s e
      = ((app.transactions.filter
            (fun tx => decide (s ≤ tx.timestamp) && decide (tx.timestamp ≤ e))).map
          (fun tx =>
            (tx.outputs.map (fun utxo =>
              utxo.amount * rateAt app.exchange_rates tx.timestamp)).sum
            - (tx.inputs.map (fun utxo =>
              utxo.amount * rateAt app.exchange_rates utxo.timestamp)).sum)).sum :=
  gains_eq_filter_sum app s e

/-- C4: Report extraction: `generate_fasb_report` returns exactly the
entries of the accounting log whose date lies in the inclusive window
`s ≤ date ≤ e`, as a filter of the log, hence in original insertion
order (the result is a sublist of the log, never re-sorted). -/
theorem report_window_inclusive (app : BitcoinAccountingApp) (s e : Nat) :
    generate_fasb_report app s e
      = app.accounting_entries.filter
          (fun entry => decide (s ≤ entry.date) && decide (entry.date ≤ e))
    ∧ (generate_fasb_report app s e).Sublist app.accounting_entries :=
  ⟨rfl, List.filter_sublist app.accounting_entries⟩

/-- C5: `add_transaction` never fails: when every input key is absent
from the unspent set, each removal is a silent no-op (the unspent set is
exactly the prior set with only the outputs inserted), and the
transaction is still logged and its accounting entries still
generated. -/
theorem add_transaction_total_on_absent (app : BitcoinAccountingApp)
    (tx : Transaction)
    (h : ∀ input ∈ tx.inputs,
      mapGet app.utxo_set (utxoKey input.txid input.vout) = none) :
    (add_transaction app tx).utxo_set
        = tx.outputs.foldl
            (fun (m : List (String × UTXO)) (output : UTXO) =>
              mapInsert m (utxoKey tx.txid output.vout) output)
            app.utxo_set
      ∧ (add_transaction app tx).transactions = app.transactions ++ [tx]
      ∧ (add_transaction app tx).accounting_entries
          = app.accounting_entries ++ generatedEntries tx := by
  refine ⟨?_, transactions_add_transaction app tx,
    accountingEntries_add_transaction app tx⟩
  rw [utxoSet_add_transaction]
  unfold specUnspentStep
  rw [foldl_mapRemove_absent tx.inputs app.utxo_set h]

/-- Witness for C5 at the example transaction applied to a fresh engine
(whose unspent set contains no key at all). -/
theorem add_transaction_total_on_absent_witness :
    (∀ input ∈ sampleTx.inputs,
      mapGet BitcoinAccountingApp.new.utxo_set
        (utxoKey input.txid input.vout) = none)
    ∧ ((add_transaction BitcoinAccountingApp.new sampleTx).utxo_set
          = sampleTx.outputs.foldl
              (fun (m : List (String × UTXO)) (output : UTXO) =>
                mapInsert m (utxoKey sampleTx.txid output.vout) output)
              BitcoinAccountingApp.new.utxo_set
        ∧ (add_transaction BitcoinAccountingApp.new sampleTx).transactions
            = BitcoinAccountingApp.new.transactions ++ [sampleTx]
        ∧ (add_transaction BitcoinAccountingApp.new sampleTx).accounting_entries
            = BitcoinAccountingApp.new.accounting_entries
                ++ generatedEntries sampleTx) :=
  ⟨by decide,
   add_transaction_total_on_absent BitcoinAccountingApp.new sampleTx (by decide)⟩

/-- C6: Rate registration is a last-write-wins upsert: setting a rate
twice at the same timestamp yields exactly the state of the second call
alone, and the second rate is the one the lookup returns; any rational
rate, positive or not, is accepted. -/
theorem set_rate_last_write_wins (app : BitcoinAccountingApp) (t : Nat)
    (r1 r2 : ℚ) :
    add_exchange_rate (add_exchange_rate app t r1) t r2
        = add_exchange_rate app t r2
    ∧ rateAt (add_exchange_rate app t r2).exchange_rates t = r2 := by
  constructor
  · unfold add_exchange_rate
    simp [mapInsert_mapInsert_same]
  · unfold add_exchange_rate rateAt
    simp [mapGet_mapInsert_self]

/-- C7: Query purity: a `report` step and a `gains` step leave every
component of the engine state unchanged. -/
theorem query_purity (app : BitcoinAccountingApp) (s e : Nat) :
    ((step app (Command.report s e)).1.utxo_set = app.utxo_set
      ∧ (step app (Command.report s e)).1.transactions = app.transactions
      ∧ (step app (Command.report s e)).1.accounting_entries
          = app.accounting_entries
      ∧ (step app (Command.report s e)).1.exchange_rates = app.exchange_rates)
    ∧ ((step app (Command.gains s e)).1.utxo_set = app.utxo_set
      ∧ (step app (Command.gains s e)).1.transactions = app.transactions
      ∧ (step app (Command.gains s e)).1.accounting_entries
          = app.accounting_entries
      ∧ (step app (Command.gains s e)).1.exchange_rates = app.exchange_rates) :=
  ⟨⟨rfl, rfl, rfl, rfl⟩, ⟨rfl, rfl, rfl, rfl⟩⟩

/-- C8: A malformed window (`s > e`) is not an error: the report is empty
and the realized gain/loss is zero. -/
theorem malformed_window_behavior (app : BitcoinAccountingApp) (s e : Nat)
    (h : s > e) :
    generate_fasb_report app s e = []
    ∧ calculate_realized_gains_losses app s e = 0 := by
  constructor
  · unfold generate_fasb_report
    apply List.filter_eq_nil_iff.mpr
    intro a _
    simp
    omega
  · rw [gains_eq_filter_sum]
    have hnil : app.transactions.filter
        (fun tx => decide (s ≤ tx.timestamp) && decide (tx.timestamp ≤ e))
          = [] := by
      apply List.filter_eq_nil_iff.mpr
      intro a _
      simp
      omega
    rw [hnil]
    rfl

/-- Witness for C8 on an engine holding one transaction and one entry. -/
theorem malformed_window_behavior_witness :
    (5 : Nat) > 3
    ∧ (generate_fasb_report sampleApp 5 3 = []
      ∧ calculate_realized_gains_losses sampleApp 5 3 = 0) :=
  ⟨by decide, malformed_window_behavior sampleApp 5 3 (by decide)⟩

/-- C9: The logs are append-only: after any single command, the prior
transaction log and the prior accounting log are prefixes of the new
ones. -/
theorem logs_append_only (app : BitcoinAccountingApp) (c : Command) :
    (∃ l, (step app c).1.transactions = app.transactions ++ l)
    ∧ (∃ l, (step app c).1.accounting_entries = app.accounting_entries ++ l) := by
  cases c with
  | addTx t =>
    exact ⟨⟨[t], transactions_add_transaction app t⟩,
      ⟨generatedEntries t, accountingEntries_add_transaction app t⟩⟩
  | setRate d r => exact ⟨⟨[], by simp [step, add_exchange_rate]⟩,
      ⟨[], by simp [step, add_exchange_rate]⟩⟩
  | report s e => exact ⟨⟨[], by simp [step]⟩, ⟨[], by simp [step]⟩⟩
  | gains s e => exact ⟨⟨[], by simp [step]⟩, ⟨[], by simp [step]⟩⟩

/-- C10: Mutation frame: `add_exchange_rate` changes only the rate table,
and `add_transaction` leaves the rate table unchanged. -/
theorem mutation_frame (app : BitcoinAccountingApp) (t : Nat) (r : ℚ)
    (tx : Transaction) :
    (add_exchange_rate app t r).utxo_set = app.utxo_set
    ∧ (add_exchange_rate app t r).transactions = app.transactions
    ∧ (add_exchange_rate app t r).accounting_entries = app.accounting_entries
    ∧ (add_transaction app tx).exchange_rates = app.exchange_rates :=
  ⟨rfl, rfl, rfl, exchangeRates_add_transaction app tx⟩

end BtcAcct
